import Mathlib

/-!
Verification development for the lib-x/face repository (Go).

Scope of the embedding: the identity registry and matching engine in
face.go (types Person, FaceFeature, FaceRecognizer; functions
cosineSimilarity, normalizeFeature, matchPerson, Recognize, AddPerson,
AddFaceSample, GetPerson, ListPersons, GetSampleCount, DetectFaces) and
the three storage backends in storage.go (MemoryStorage, FileStorage,
JSONStorage).

Modelling conventions:
- Go float32 values are modelled as rationals; math.Sqrt is modelled by
  Rat.sqrt, which agrees with the ideal square root, and with the float
  one, on perfect squares. Every concrete input used below keeps all
  norms at perfect squares, where the model is exact.
- Go pointers (the registry map holds values of type pointer-to-Person,
  GetPerson returns such a pointer, storage backends store and return
  them) are modelled by an explicit heap: a list of Person cells indexed
  by address. Caller-side mutation through a pointer is a heap update.
- External collaborators (the pigo detector output, the neural encoder
  output, the filesystem, JSON serialization) enter as explicit data:
  detector output as a list of detections with quality scores, encoder
  output as a function from the selected region, the filesystem as an
  association list from file name to document, JSON as an inductive
  document type with an encode/decode pair.
-/

deriving instance DecidableEq for Except

namespace Face

/-! ## Numeric utilities (face.go, bottom section) -/

/-- Sum of pointwise products of two equally indexed lists; this is the
single accumulation loop of cosineSimilarity specialised to one of its
three accumulators. -/
def dotProduct (a b : List ℚ) : ℚ :=
  (List.zipWith (· * ·) a b).sum

/-- Model of Go cosineSimilarity: returns 0 on length mismatch, returns 0
when either accumulated squared norm is 0, otherwise the dot product
divided by the product of the square roots of the squared norms. -/
def cosineSimilarity (a b : List ℚ) : ℚ :=
  if a.length ≠ b.length then 0
  else
    let dot := dotProduct a b
    let normA := dotProduct a a
    let normB := dotProduct b b
    if normA = 0 ∨ normB = 0 then 0
    else dot / (Rat.sqrt normA * Rat.sqrt normB)

/-- Model of Go normalizeFeature: L2-normalises a vector, returning the
input unchanged when the computed norm is 0. -/
def normalizeFeature (feature : List ℚ) : List ℚ :=
  let norm := Rat.sqrt (feature.map (fun v => v * v)).sum
  if norm = 0 then feature
  else feature.map (fun v => v / norm)

/-! ## Data model (face.go) -/

/-- Model of Go struct FaceFeature. -/
structure FaceFeature where
  personID : String
  feature : List ℚ
  deriving DecidableEq, Repr

/-- Model of Go struct Person (the per-identity mutex is concurrency
bookkeeping with no sequential content and is not modelled). -/
structure Person where
  id : String
  name : String
  features : List FaceFeature
  deriving DecidableEq, Repr

/-! ## Matching (face.go matchPerson and the per-face decision inside
Recognize) -/

/-- Accumulator of the matchPerson loop: current best person id, best
person name, best confidence. -/
structure MatchAcc where
  bestPersonID : String
  bestPersonName : String
  bestConfidence : ℚ
  deriving DecidableEq, Repr

/-- Body of the inner matchPerson loop: update the accumulator whenever
the sample is strictly more similar than the best seen so far. -/
def sampleStep (feature : List ℚ) (pid pname : String)
    (acc : MatchAcc) (sample : FaceFeature) : MatchAcc :=
  let similarity := cosineSimilarity feature sample.feature
  if similarity > acc.bestConfidence then
    ⟨pid, pname, similarity⟩
  else acc

/-- Inner loop of matchPerson over the samples of one person. -/
def matchScanPerson (feature : List ℚ) (acc : MatchAcc) (p : Person) : MatchAcc :=
  p.features.foldl (sampleStep feature p.id p.name) acc

/-- Model of Go matchPerson: fold over the identity snapshot (the map
iteration order is captured by the list order, which all theorems below
quantify over), starting from empty ids and confidence 0. -/
def matchPerson (persons : List Person) (feature : List ℚ)
    : String × String × ℚ :=
  let acc := persons.foldl (matchScanPerson feature) ⟨"", "", 0⟩
  (acc.bestPersonID, acc.bestPersonName, acc.bestConfidence)

/-- Model of one RecognizeResult entry without the bounding box. -/
structure RecognizeOutcome where
  personID : String
  personName : String
  confidence : ℚ
  deriving DecidableEq, Repr

/-- Per-face decision inside Go Recognize: accept the matched person when
the confidence reaches the threshold, otherwise report the unknown
sentinel carrying the same confidence. -/
def recognizeDecision (persons : List Person) (threshold : ℚ)
    (feature : List ℚ) : RecognizeOutcome :=
  let m := matchPerson persons feature
  if m.2.2 ≥ threshold then
    ⟨m.1, m.2.1, m.2.2⟩
  else
    ⟨"unknown", "Unknown", m.2.2⟩

/-- Similarities of the query against every stored sample of every
identity, in iteration order. -/
def similarityList (feature : List ℚ) : List Person → List ℚ
  | [] => []
  | p :: ps =>
    p.features.map (fun s => cosineSimilarity feature s.feature)
      ++ similarityList feature ps

/-! ## Heap model for Go pointers -/

/-- Address of a heap cell holding a Person. -/
abbrev Addr := Nat

/-- Heap of Person cells; a Go value of type pointer-to-Person is an index
into this list. -/
structure World where
  heap : List Person
  deriving DecidableEq, Repr

/-- Read the Person a pointer refers to (default cell for dangling
addresses; theorems carry validity bounds where it matters). -/
def World.deref (w : World) (a : Addr) : Person :=
  w.heap.getD a ⟨"", "", []⟩

/-- Allocate a fresh Person cell and return its address. -/
def World.alloc (w : World) (p : Person) : World × Addr :=
  (⟨w.heap ++ [p]⟩, w.heap.length)

/-- Caller-side mutation through a pointer: assign the Name field. -/
def World.setName (w : World) (a : Addr) (n : String) : World :=
  ⟨w.heap.set a { w.deref a with name := n }⟩

/-- Caller-side mutation through a pointer: assign the Features field. -/
def World.setFeatures (w : World) (a : Addr) (fs : List FaceFeature) : World :=
  ⟨w.heap.set a { w.deref a with features := fs }⟩

/-- Registry-side mutation used by AddFaceSample: append one feature to
the cell the pointer refers to. -/
def World.appendFeature (w : World) (a : Addr) (f : FaceFeature) : World :=
  ⟨w.heap.set a { w.deref a with features := (w.deref a).features ++ [f] }⟩

/-! ## String-keyed maps (Go maps, and directories as name-keyed stores) -/

/-- Lookup in an association list modelling a Go map. -/
def lookupKey {α : Type} : List (String × α) → String → Option α
  | [], _ => none
  | (k, v) :: rest, id => if k = id then some v else lookupKey rest id

/-- Insert-or-replace in an association list modelling a Go map (also the
create-or-truncate behaviour of writing a file by name). -/
def insertKey {α : Type} : List (String × α) → String → α → List (String × α)
  | [], id, a => [(id, a)]
  | (k, v) :: rest, id, a =>
    if k = id then (id, a) :: rest else (k, v) :: insertKey rest id a

/-! ## Detector output (DetectFaces) and the enrollment region policy -/

/-- Axis-aligned rectangle, mirroring Go image.Rectangle. -/
structure Rect where
  x0 : Int
  y0 : Int
  x1 : Int
  y1 : Int
  deriving DecidableEq, Repr

/-- One pigo detection: row and column of the center, scale (side
length), and quality score Q. -/
structure Detection where
  row : Int
  col : Int
  scale : Int
  q : ℚ
  deriving DecidableEq, Repr

/-- Rectangle built from a detection inside Go DetectFaces (Go integer
division truncates toward zero, as Int division does here). -/
def detectionRect (d : Detection) : Rect :=
  let x := d.col - d.scale / 2
  let y := d.row - d.scale / 2
  ⟨x, y, x + d.scale, y + d.scale⟩

/-- Model of Go DetectFaces downstream of the external pigo classifier:
keep the detections whose quality exceeds the configured threshold, in
detector order, and convert each to a rectangle. -/
def detectFaces (qualityThreshold : ℚ) (dets : List Detection) : List Rect :=
  (dets.filter (fun d => d.q > qualityThreshold)).map detectionRect

/-- Area of a rectangle. -/
def rectArea (r : Rect) : Int :=
  (r.x1 - r.x0) * (r.y1 - r.y0)

/-- Definition following the words of the spec, for comparison with the
code: the enrollment policy is said to select, among the regions passing
the quality threshold, the one with the highest detector quality score,
ties broken by larger region area. -/
def specSelectBestRegion (qualityThreshold : ℚ) (dets : List Detection)
    : Option Detection :=
  (dets.filter (fun d => d.q > qualityThreshold)).foldl
    (fun best d =>
      match best with
      | none => some d
      | some b =>
        if d.q > b.q ∨ (d.q = b.q ∧ rectArea (detectionRect d) > rectArea (detectionRect b)) then
          some d
        else some b)
    none

/-! ## Registry state and operations (FaceRecognizer) -/

/-- Error outcomes of the registry operations (Go returns error values
built with fmt.Errorf or errors.New; only the case matters here). -/
inductive FaceError where
  | alreadyExists
  | notFound
  | noFaceDetected
  | extractFailed
  | readFailed
  | unmarshalFailed
  deriving DecidableEq, Repr

/-- In-memory part of FaceRecognizer relevant to the claims: the identity
map (id to Person pointer), the similarity threshold, the configured
feature dimension, and the detector quality threshold. -/
structure RecognizerState where
  persons : List (String × Addr)
  threshold : ℚ
  featureDim : Nat
  qualityThreshold : ℚ
  deriving DecidableEq, Repr

/-- Model of Go AddPerson: fail when the id is present, otherwise
allocate a fresh Person with no samples and insert its pointer. -/
def addPerson (w : World) (st : RecognizerState) (id name : String)
    : Except FaceError (World × RecognizerState) :=
  match lookupKey st.persons id with
  | some _ => .error .alreadyExists
  | none =>
    let wa := w.alloc ⟨id, name, []⟩
    .ok (wa.1, { st with persons := insertKey st.persons id wa.2 })

/-- Model of Go ExtractFeature downstream of the external encoder: the
encoder output for the given region (its length is whatever the network
produces), L2-normalised; encoder failure propagates. -/
def extractFeature (encode : Rect → Except Unit (List ℚ)) (region : Rect)
    : Except Unit (List ℚ) :=
  match encode region with
  | .error e => .error e
  | .ok raw => .ok (normalizeFeature raw)

/-- Model of Go AddFaceSample: look up the person pointer, detect faces,
take the FIRST detected region, extract its feature, and append the
feature to the person cell. The identity map itself is not touched. -/
def addFaceSample (w : World) (st : RecognizerState) (personID : String)
    (dets : List Detection) (encode : Rect → Except Unit (List ℚ))
    : Except FaceError World :=
  match lookupKey st.persons personID with
  | none => .error .notFound
  | some addr =>
    match detectFaces st.qualityThreshold dets with
    | [] => .error .noFaceDetected
    | face0 :: _ =>
      match extractFeature encode face0 with
      | .error _ => .error .extractFailed
      | .ok feature => .ok (w.appendFeature addr ⟨personID, feature⟩)

/-- Model of Go GetPerson: return the stored Person pointer itself. -/
def getPerson (st : RecognizerState) (id : String) : Except FaceError Addr :=
  match lookupKey st.persons id with
  | none => .error .notFound
  | some addr => .ok addr

/-- Model of Go ListPersons: the stored Person pointers, in map iteration
order. -/
def listPersons (st : RecognizerState) : List Addr :=
  st.persons.map (fun kv => kv.2)

/-- Model of Go GetSampleCount: length of the Features list of the cell
the stored pointer refers to. -/
def getSampleCount (w : World) (st : RecognizerState) (id : String)
    : Except FaceError Nat :=
  match lookupKey st.persons id with
  | none => .error .notFound
  | some addr => .ok (w.deref addr).features.length

/-- Person values the registry map currently refers to, in map iteration
order; this is the snapshot matchPerson folds over. -/
def registrySnapshot (w : World) (st : RecognizerState) : List Person :=
  st.persons.map (fun kv => w.deref kv.2)

/-! ## JSON documents (the durable record format of storage.go) -/

/-- JSON-like document values; corrupted file contents are documents that
fail to decode as a Person record. -/
inductive Jsonish where
  | str : String → Jsonish
  | num : ℚ → Jsonish
  | arr : List Jsonish → Jsonish
  | obj : List (String × Jsonish) → Jsonish

/-- Model of json.Marshal on a FaceFeature value. -/
def marshalFeature (f : FaceFeature) : Jsonish :=
  .obj [("person_id", .str f.personID), ("feature", .arr (f.feature.map .num))]

/-- Model of json.Marshal on a Person value (the unexported mutex is not
serialized). -/
def marshalPerson (p : Person) : Jsonish :=
  .obj [("id", .str p.id), ("name", .str p.name),
        ("features", .arr (p.features.map marshalFeature))]

/-- Read a string out of a document node. -/
def Jsonish.asStr : Jsonish → Option String
  | .str s => some s
  | _ => none

/-- Read a number out of a document node. -/
def Jsonish.asNum : Jsonish → Option ℚ
  | .num q => some q
  | _ => none

/-- Read an array out of a document node. -/
def Jsonish.asArr : Jsonish → Option (List Jsonish)
  | .arr xs => some xs
  | _ => none

/-- Decode a list of number nodes element-wise, failing on any
non-number node. -/
def decodeNums : List Jsonish → Option (List ℚ)
  | [] => some []
  | j :: rest =>
    match j.asNum with
    | none => none
    | some q =>
      match decodeNums rest with
      | none => none
      | some qs => some (q :: qs)

/-- Model of json.Unmarshal into a FaceFeature. -/
def unmarshalFeature (j : Jsonish) : Option FaceFeature :=
  match j with
  | .obj fields => do
    let pid ← (← lookupKey fields "person_id").asStr
    let featNodes ← (← lookupKey fields "feature").asArr
    let feat ← decodeNums featNodes
    pure ⟨pid, feat⟩
  | _ => none

/-- Decode a list of feature nodes element-wise, failing on any node
that is not a well-formed feature record. -/
def decodeFeatures : List Jsonish → Option (List FaceFeature)
  | [] => some []
  | j :: rest =>
    match unmarshalFeature j with
    | none => none
    | some f =>
      match decodeFeatures rest with
      | none => none
      | some fs => some (f :: fs)

/-- Model of json.Unmarshal into a Person. -/
def unmarshalPerson (j : Jsonish) : Option Person :=
  match j with
  | .obj fields => do
    let id ← (← lookupKey fields "id").asStr
    let name ← (← lookupKey fields "name").asStr
    let featNodes ← (← lookupKey fields "features").asArr
    let feats ← decodeFeatures featNodes
    pure ⟨id, name, feats⟩
  | _ => none

/-! ## MemoryStorage (storage.go) -/

/-- State of a MemoryStorage value: its id-keyed map of Person pointers. -/
structure MemoryStorage where
  persons : List (String × Addr)
  deriving DecidableEq, Repr

/-- Model of MemoryStorage.SavePerson: allocate a copy of the argument
cell (id, name, and the features slice are copied) and store the copy
pointer under the id. -/
def memSavePerson (w : World) (s : MemoryStorage) (addr : Addr)
    : World × MemoryStorage :=
  let p := w.deref addr
  let wa := w.alloc ⟨p.id, p.name, p.features⟩
  (wa.1, ⟨insertKey s.persons p.id wa.2⟩)

/-- Model of MemoryStorage.LoadPerson: NotFound on an absent id,
otherwise allocate a copy of the stored cell and return the copy
pointer. -/
def memLoadPerson (w : World) (s : MemoryStorage) (id : String)
    : Except FaceError (World × Addr) :=
  match lookupKey s.persons id with
  | none => .error .notFound
  | some a =>
    let p := w.deref a
    let wa := w.alloc ⟨p.id, p.name, p.features⟩
    .ok (wa.1, wa.2)

/-- Model of MemoryStorage.LoadAllPersons: a copy of every stored cell,
in map iteration order. -/
def memLoadAllPersons (w : World) (s : MemoryStorage) : World × List Addr :=
  s.persons.foldl
    (fun acc kv =>
      let p := acc.1.deref kv.2
      let wa := acc.1.alloc ⟨p.id, p.name, p.features⟩
      (wa.1, acc.2 ++ [wa.2]))
    (w, [])

/-! ## FileStorage (storage.go): one file per identity under a base
directory -/

/-- One directory entry as FileStorage sees it: a readable file holding a
document, an unreadable file, or a subdirectory. -/
inductive FileNode where
  | file : Jsonish → FileNode
  | unreadable : FileNode
  | dir : FileNode

/-- Discriminator mirroring file.IsDir(). -/
def FileNode.isDir : FileNode → Bool
  | .dir => true
  | _ => false

/-- State of a FileStorage value: the entries of its base directory, in
directory listing order, keyed by file name. -/
structure FileStorage where
  files : List (String × FileNode)

/-- Model of FileStorage.SavePerson: marshal the Person the pointer
refers to and write it (create-or-truncate) to the file named by its id
plus the json extension. -/
def fileSavePerson (w : World) (s : FileStorage) (addr : Addr) : FileStorage :=
  let p := w.deref addr
  ⟨insertKey s.files (p.id ++ ".json") (.file (marshalPerson p))⟩

/-- Model of FileStorage.LoadPerson: read the file named by the id,
NotFound when absent, a read error for unreadable entries, an unmarshal
error for documents that fail to decode, otherwise a pointer to a fresh
cell holding the decoded Person. -/
def fileLoadPerson (w : World) (s : FileStorage) (id : String)
    : Except FaceError (World × Addr) :=
  match lookupKey s.files (id ++ ".json") with
  | none => .error .notFound
  | some .unreadable => .error .readFailed
  | some .dir => .error .readFailed
  | some (.file doc) =>
    match unmarshalPerson doc with
    | none => .error .unmarshalFailed
    | some p =>
      let wa := w.alloc p
      .ok (wa.1, wa.2)

/-- Model of FileStorage.LoadAllPersons: scan the directory in order,
skip subdirectories and names not ending in the json extension, load each
remaining entry by its id, and silently skip entries whose load fails. -/
def fileLoadAllPersons (w : World) (s : FileStorage) : World × List Addr :=
  s.files.foldl
    (fun acc entry =>
      if entry.2.isDir ∨ entry.1.takeRight 5 ≠ ".json" then acc
      else
        match fileLoadPerson acc.1 s (entry.1.dropRight 5) with
        | .error _ => acc
        | .ok (w2, a) => (w2, acc.2 ++ [a]))
    (w, [])

/-! ## JSONStorage (storage.go): one aggregate file, map kept in memory.
SavePerson and DeletePerson also rewrite the aggregate file; the claims
below concern only what LoadPerson and LoadAllPersons return, which is
served from the in-memory map. -/

/-- State of a JSONStorage value: its id-keyed map of Person pointers. -/
structure JSONStorage where
  persons : List (String × Addr)
  deriving DecidableEq, Repr

/-- Model of JSONStorage.SavePerson: store the CALLER'S pointer itself
under the id (no copy is taken). -/
def jsonSavePerson (w : World) (s : JSONStorage) (addr : Addr) : JSONStorage :=
  ⟨insertKey s.persons (w.deref addr).id addr⟩

/-- Model of JSONStorage.LoadPerson: NotFound on an absent id, otherwise
the stored pointer itself (no copy is taken). -/
def jsonLoadPerson (s : JSONStorage) (id : String) : Except FaceError Addr :=
  match lookupKey s.persons id with
  | none => .error .notFound
  | some a => .ok a

/-- Model of JSONStorage.LoadAllPersons: the stored pointers themselves,
in map iteration order. -/
def jsonLoadAllPersons (s : JSONStorage) : List Addr :=
  s.persons.map (fun kv => kv.2)

/-! ## Dereferenced views of the storage load results -/

/-- Person value a MemoryStorage load yields, dereferenced in the world
the load produced. -/
def memLoadValue (w : World) (s : MemoryStorage) (id : String) : Option Person :=
  match memLoadPerson w s id with
  | .error _ => none
  | .ok wa => some (wa.1.deref wa.2)

/-- Person value a JSONStorage load yields, dereferenced in the given
world. -/
def jsonLoadValue (w : World) (s : JSONStorage) (id : String) : Option Person :=
  match jsonLoadPerson s id with
  | .error _ => none
  | .ok a => some (w.deref a)

/-- Person value a FileStorage load yields, dereferenced in the world the
load produced. -/
def fileLoadValue (w : World) (s : FileStorage) (id : String) : Option Person :=
  match fileLoadPerson w s id with
  | .error _ => none
  | .ok wa => some (wa.1.deref wa.2)

/-- Person values a FileStorage load-all yields, dereferenced in the
world the scan produced. -/
def fileLoadAllValues (w : World) (s : FileStorage) : List Person :=
  (fileLoadAllPersons w s).2.map (fileLoadAllPersons w s).1.deref

/-! ## Square-root evaluation helpers -/

/-- Value of the modelled square root at 0. -/
theorem ratSqrt_zero : Rat.sqrt 0 = 0 := by
  rw [show (0 : ℚ) = 0 * 0 from by norm_num, Rat.sqrt_eq]
  norm_num

/-- Value of the modelled square root at 1. -/
theorem ratSqrt_one : Rat.sqrt 1 = 1 := by
  rw [show (1 : ℚ) = 1 * 1 from by norm_num, Rat.sqrt_eq]
  norm_num

/-- Value of the modelled square root at 4. -/
theorem ratSqrt_four : Rat.sqrt 4 = 2 := by
  rw [show (4 : ℚ) = 2 * 2 from by norm_num, Rat.sqrt_eq]
  norm_num

/-- Value of the modelled square root at 25. -/
theorem ratSqrt_twentyfive : Rat.sqrt 25 = 5 := by
  rw [show (25 : ℚ) = 5 * 5 from by norm_num, Rat.sqrt_eq]
  norm_num

/-! ## Claim C8: degenerate inputs of the Embedding Normalizer -/

/-- C8. The Embedding Normalizer degenerate-input contract: a length
mismatch yields exactly 0; a zero squared norm on either side yields
exactly 0; normalizing a zero vector returns the vector unchanged. -/
theorem C8_normalizer_degenerate_contract :
    (∀ a b : List ℚ, a.length ≠ b.length → cosineSimilarity a b = 0) ∧
    (∀ a b : List ℚ, (dotProduct a a = 0 ∨ dotProduct b b = 0) →
      cosineSimilarity a b = 0) ∧
    (∀ v : List ℚ, (∀ x ∈ v, x = 0) → normalizeFeature v = v) := by
  refine ⟨?_, ?_, ?_⟩
  · intro a b h
    simp [cosineSimilarity, h]
  · intro a b h
    unfold cosineSimilarity
    split
    · rfl
    · dsimp only
      rw [if_pos h]
  · intro v hv
    have hsum : (v.map fun x => x * x).sum = 0 := by
      refine List.sum_eq_zero ?_
      intro y hy
      obtain ⟨x, hx, rfl⟩ := List.mem_map.1 hy
      rw [hv x hx, mul_zero]
    simp only [normalizeFeature, hsum, ratSqrt_zero, if_pos]

/-- Witness for C8 at concrete inputs: mismatched lengths, a zero-norm
left argument, and the zero vector. -/
theorem C8_normalizer_degenerate_contract_witness :
    cosineSimilarity [1, 0] [1] = 0 ∧
    cosineSimilarity [0, 0] [5, 5] = 0 ∧
    normalizeFeature [0, 0, 0] = [0, 0, 0] := by
  refine ⟨C8_normalizer_degenerate_contract.1 [1, 0] [1] (by decide),
    C8_normalizer_degenerate_contract.2.1 [0, 0] [5, 5] (Or.inl ?_),
    C8_normalizer_degenerate_contract.2.2 [0, 0, 0] (by decide)⟩
  norm_num [dotProduct]

/-! ## Structure of the matchPerson fold -/

/-- Folding max never goes below its starting value. -/
theorem le_foldl_max (l : List ℚ) (a : ℚ) : a ≤ l.foldl max a := by
  induction l generalizing a with
  | nil => exact le_refl a
  | cons x xs ih => exact le_trans (le_max_left a x) (ih (max a x))

/-- Confidence after one sample step is the max of the old confidence and
the similarity of that sample. -/
theorem sampleStep_conf (feature : List ℚ) (pid pname : String)
    (acc : MatchAcc) (s : FaceFeature) :
    (sampleStep feature pid pname acc s).bestConfidence
      = max acc.bestConfidence (cosineSimilarity feature s.feature) := by
  unfold sampleStep
  dsimp only
  split
  · rename_i h
    exact (max_eq_right (le_of_lt h)).symm
  · rename_i h
    exact (max_eq_left (not_lt.1 h)).symm

/-- Confidence after scanning a sample list is the running max of the
similarities, seeded with the incoming confidence. -/
theorem foldl_sampleStep_conf (feature : List ℚ) (pid pname : String)
    (fs : List FaceFeature) (acc : MatchAcc) :
    (fs.foldl (sampleStep feature pid pname) acc).bestConfidence
      = (fs.map (fun s => cosineSimilarity feature s.feature)).foldl
          max acc.bestConfidence := by
  induction fs generalizing acc with
  | nil => rfl
  | cons s fs ih =>
    simp only [List.foldl_cons, List.map_cons]
    rw [ih, sampleStep_conf]

/-- Confidence after scanning one person, in terms of that person's
similarities. -/
theorem matchScanPerson_conf (feature : List ℚ) (acc : MatchAcc) (p : Person) :
    (matchScanPerson feature acc p).bestConfidence
      = (p.features.map (fun s => cosineSimilarity feature s.feature)).foldl
          max acc.bestConfidence :=
  foldl_sampleStep_conf feature p.id p.name p.features acc

/-- Confidence of the whole fold is the running max of every similarity
in the snapshot, seeded with the incoming confidence. -/
theorem foldl_matchScan_conf (feature : List ℚ) (persons : List Person)
    (acc : MatchAcc) :
    (persons.foldl (matchScanPerson feature) acc).bestConfidence
      = (similarityList feature persons).foldl max acc.bestConfidence := by
  induction persons generalizing acc with
  | nil => rfl
  | cons p ps ih =>
    simp only [List.foldl_cons, similarityList]
    rw [ih, List.foldl_append, matchScanPerson_conf]

/-- Confidence computed by matchPerson equals the maximum of 0 and all
stored-sample similarities. -/
theorem matchPerson_conf (persons : List Person) (feature : List ℚ) :
    (matchPerson persons feature).2.2
      = (similarityList feature persons).foldl max 0 :=
  foldl_matchScan_conf feature persons ⟨"", "", 0⟩

/-- One sample step either keeps the accumulator or installs that
sample's identity and similarity, and then the similarity strictly
exceeds the incoming confidence. -/
theorem sampleStep_cases (feature : List ℚ) (pid pname : String)
    (acc : MatchAcc) (s : FaceFeature) :
    sampleStep feature pid pname acc s = acc ∨
    (sampleStep feature pid pname acc s
        = ⟨pid, pname, cosineSimilarity feature s.feature⟩ ∧
      acc.bestConfidence < cosineSimilarity feature s.feature) := by
  unfold sampleStep
  dsimp only
  split
  · rename_i h
    exact Or.inr ⟨rfl, h⟩
  · exact Or.inl rfl

/-- Scanning a sample list either keeps the accumulator or ends on one of
the scanned samples, whose similarity strictly exceeds the incoming
confidence. -/
theorem foldl_sampleStep_cases (feature : List ℚ) (pid pname : String)
    (fs : List FaceFeature) (acc : MatchAcc) :
    fs.foldl (sampleStep feature pid pname) acc = acc ∨
    ∃ s ∈ fs, fs.foldl (sampleStep feature pid pname) acc
        = ⟨pid, pname, cosineSimilarity feature s.feature⟩ ∧
      acc.bestConfidence < cosineSimilarity feature s.feature := by
  induction fs generalizing acc with
  | nil => exact Or.inl rfl
  | cons s fs ih =>
    rw [List.foldl_cons]
    rcases sampleStep_cases feature pid pname acc s with h | ⟨h, hlt⟩
    · rcases ih (sampleStep feature pid pname acc s) with h2 | ⟨t, ht, h2, hlt2⟩
      · exact Or.inl (by rw [h2, h])
      · exact Or.inr ⟨t, List.mem_cons_of_mem s ht, h2, by rw [h] at hlt2; exact hlt2⟩
    · rcases ih (sampleStep feature pid pname acc s) with h2 | ⟨t, ht, h2, hlt2⟩
      · exact Or.inr ⟨s, List.mem_cons_self s fs, by rw [h2, h], hlt⟩
      · refine Or.inr ⟨t, List.mem_cons_of_mem s ht, h2, lt_trans hlt ?_⟩
        rw [h] at hlt2
        exact hlt2

/-- Scanning one person either keeps the accumulator or ends on one of
that person's samples. -/
theorem matchScanPerson_cases (feature : List ℚ) (acc : MatchAcc) (p : Person) :
    matchScanPerson feature acc p = acc ∨
    ∃ s ∈ p.features, matchScanPerson feature acc p
        = ⟨p.id, p.name, cosineSimilarity feature s.feature⟩ ∧
      acc.bestConfidence < cosineSimilarity feature s.feature :=
  foldl_sampleStep_cases feature p.id p.name p.features acc

/-- Scanning one person never lowers the confidence. -/
theorem matchScanPerson_mono (feature : List ℚ) (acc : MatchAcc) (p : Person) :
    acc.bestConfidence ≤ (matchScanPerson feature acc p).bestConfidence := by
  rw [matchScanPerson_conf]
  exact le_foldl_max _ _

/-- The whole fold either keeps the accumulator or ends on some sample of
some person of the snapshot, whose similarity strictly exceeds the
incoming confidence. -/
theorem foldl_matchScan_cases (feature : List ℚ) (persons : List Person)
    (acc : MatchAcc) :
    persons.foldl (matchScanPerson feature) acc = acc ∨
    ∃ p ∈ persons, ∃ s ∈ p.features,
      persons.foldl (matchScanPerson feature) acc
        = ⟨p.id, p.name, cosineSimilarity feature s.feature⟩ ∧
      acc.bestConfidence < cosineSimilarity feature s.feature := by
  induction persons generalizing acc with
  | nil => exact Or.inl rfl
  | cons p ps ih =>
    rw [List.foldl_cons]
    rcases matchScanPerson_cases feature acc p with h | ⟨s, hs, h, hlt⟩
    · rcases ih (matchScanPerson feature acc p) with h2 | ⟨q, hq, t, ht, h2, hlt2⟩
      · exact Or.inl (by rw [h2, h])
      · exact Or.inr ⟨q, List.mem_cons_of_mem p hq, t, ht, h2,
          by rw [h] at hlt2; exact hlt2⟩
    · rcases ih (matchScanPerson feature acc p) with h2 | ⟨q, hq, t, ht, h2, hlt2⟩
      · exact Or.inr ⟨p, List.mem_cons_self p ps, s, hs, by rw [h2, h], hlt⟩
      · refine Or.inr ⟨q, List.mem_cons_of_mem p hq, t, ht, h2, lt_trans hlt ?_⟩
        rw [h] at hlt2
        exact hlt2

/-- Result of matchPerson is either the initial sentinel or carries the
id, name, and similarity of some stored sample with strictly positive
similarity. -/
theorem matchPerson_cases (persons : List Person) (feature : List ℚ) :
    matchPerson persons feature = ("", "", 0) ∨
    ∃ p ∈ persons, ∃ s ∈ p.features,
      matchPerson persons feature
        = (p.id, p.name, cosineSimilarity feature s.feature) ∧
      0 < cosineSimilarity feature s.feature := by
  unfold matchPerson
  rcases foldl_matchScan_cases feature persons ⟨"", "", 0⟩ with h | ⟨p, hp, s, hs, h, hlt⟩
  · exact Or.inl (by rw [h])
  · exact Or.inr ⟨p, hp, s, hs, by rw [h], hlt⟩

/-! ## Claim C1: what the matcher actually reports -/

/-- C1 (counterexample). The claim says the matcher computes the maximum
cosine similarity over all stored samples and that callers always learn
the best score on a non-match. With one identity whose single sample has
similarity -1 to the query, the true maximum is -1, yet matchPerson
reports confidence 0 and Recognize reports the unknown sentinel with
confidence 0, not the sub-threshold best score -1. -/
theorem C1_counterexample :
    cosineSimilarity [-1] [1] = -1 ∧
    (matchPerson [(⟨"p1", "Alice", [⟨"p1", [1]⟩]⟩ : Person)] [-1])
      = ("", "", 0) ∧
    recognizeDecision [(⟨"p1", "Alice", [⟨"p1", [1]⟩]⟩ : Person)] (3/5) [-1]
      = ⟨"unknown", "Unknown", 0⟩ := by
  have hcs : cosineSimilarity [-1] [1] = -1 := by
    simp only [cosineSimilarity, dotProduct, List.zipWith, List.sum_cons,
      List.sum_nil]
    norm_num [ratSqrt_one]
  have hstep : sampleStep [-1] "p1" "Alice" ⟨"", "", 0⟩
      (⟨"p1", [1]⟩ : FaceFeature) = ⟨"", "", 0⟩ := by
    unfold sampleStep
    dsimp only
    rw [hcs, if_neg (by norm_num)]
  have hm : matchPerson [(⟨"p1", "Alice", [⟨"p1", [1]⟩]⟩ : Person)] [-1]
      = ("", "", 0) := by
    unfold matchPerson matchScanPerson
    simp only [List.foldl_cons, List.foldl_nil, hstep]
  refine ⟨hcs, hm, ?_⟩
  unfold recognizeDecision
  rw [hm]
  norm_num

/-- C1 (amended). The matcher's confidence is the maximum of 0 and all
stored-sample similarities (not the plain maximum); when that confidence
reaches the threshold the result carries the tracked identity and
confidence, otherwise the unknown sentinel with the same clamped
confidence; when the confidence is positive the tracked identity owns a
sample attaining it; an empty registry gives confidence 0 and, for a
positive threshold, the unknown sentinel. -/
theorem C1_matcher_best_score (persons : List Person) (feature : List ℚ)
    (threshold : ℚ) :
    (matchPerson persons feature).2.2
        = (similarityList feature persons).foldl max 0 ∧
    (threshold ≤ (matchPerson persons feature).2.2 →
      recognizeDecision persons threshold feature
        = ⟨(matchPerson persons feature).1, (matchPerson persons feature).2.1,
           (matchPerson persons feature).2.2⟩) ∧
    ((matchPerson persons feature).2.2 < threshold →
      recognizeDecision persons threshold feature
        = ⟨"unknown", "Unknown", (matchPerson persons feature).2.2⟩) ∧
    (0 < (matchPerson persons feature).2.2 →
      ∃ p ∈ persons, ∃ s ∈ p.features,
        matchPerson persons feature
          = (p.id, p.name, cosineSimilarity feature s.feature)) ∧
    (persons = [] →
      matchPerson persons feature = ("", "", 0) ∧
      (0 < threshold →
        recognizeDecision persons threshold feature
          = ⟨"unknown", "Unknown", 0⟩)) := by
  refine ⟨matchPerson_conf persons feature, ?_, ?_, ?_, ?_⟩
  · intro h
    unfold recognizeDecision
    rw [if_pos h]
  · intro h
    unfold recognizeDecision
    rw [if_neg (not_le.2 h)]
  · intro h
    rcases matchPerson_cases persons feature with h0 | ⟨p, hp, s, hs, h1, _⟩
    · rw [h0] at h
      exact absurd h (lt_irrefl 0)
    · exact ⟨p, hp, s, hs, h1⟩
  · rintro rfl
    refine ⟨rfl, ?_⟩
    intro ht
    unfold recognizeDecision
    rw [show matchPerson [] feature = ("", "", 0) from rfl]
    rw [if_neg (not_le.2 ht)]

/-- Witness for C1 (amended): the two-identity scenario accepts identity
A with confidence 1 at threshold 3/5, and the empty registry yields the
unknown sentinel with confidence 0. -/
theorem C1_matcher_best_score_witness :
    recognizeDecision
        [(⟨"A", "Alice", [⟨"A", [1, 0, 0]⟩]⟩ : Person),
         (⟨"B", "Bob", [⟨"B", [0, 1, 0]⟩]⟩ : Person)]
        (3/5) [1, 0, 0]
      = ⟨"A", "Alice", 1⟩ ∧
    recognizeDecision [] (3/5) [0] = ⟨"unknown", "Unknown", 0⟩ := by
  have hcsA : cosineSimilarity [1, 0, 0] [1, 0, 0] = 1 := by
    simp only [cosineSimilarity, dotProduct, List.zipWith, List.sum_cons,
      List.sum_nil]
    norm_num [ratSqrt_one]
  have hcsB : cosineSimilarity [1, 0, 0] [0, 1, 0] = 0 := by
    simp only [cosineSimilarity, dotProduct, List.zipWith, List.sum_cons,
      List.sum_nil]
    norm_num [ratSqrt_one]
  have hstepA : sampleStep [1, 0, 0] "A" "Alice" ⟨"", "", 0⟩
      (⟨"A", [1, 0, 0]⟩ : FaceFeature) = ⟨"A", "Alice", 1⟩ := by
    unfold sampleStep
    dsimp only
    rw [hcsA, if_pos (by norm_num)]
  have hstepB : sampleStep [1, 0, 0] "B" "Bob" ⟨"A", "Alice", 1⟩
      (⟨"B", [0, 1, 0]⟩ : FaceFeature) = ⟨"A", "Alice", 1⟩ := by
    unfold sampleStep
    dsimp only
    rw [hcsB, if_neg (by norm_num)]
  have hm : matchPerson
      [(⟨"A", "Alice", [⟨"A", [1, 0, 0]⟩]⟩ : Person),
       (⟨"B", "Bob", [⟨"B", [0, 1, 0]⟩]⟩ : Person)]
      [1, 0, 0] = ("A", "Alice", 1) := by
    unfold matchPerson matchScanPerson
    simp only [List.foldl_cons, List.foldl_nil, hstepA, hstepB]
  constructor
  · have h := (C1_matcher_best_score
      [(⟨"A", "Alice", [⟨"A", [1, 0, 0]⟩]⟩ : Person),
       (⟨"B", "Bob", [⟨"B", [0, 1, 0]⟩]⟩ : Person)]
      [1, 0, 0] (3/5)).2.1 (by rw [hm]; norm_num)
    rw [hm] at h
    exact h
  · exact ((C1_matcher_best_score [] [0] (3/5)).2.2.2.2 rfl).2 (by norm_num)

/-! ## Claim C10: the reported confidence is clamped at zero -/

/-- C10. The confidence matchPerson reports is never negative; when every
stored sample of every identity has negative similarity to the query the
result is the empty-id sentinel with confidence 0; and an identity (with
a nonempty id, unique in the snapshot) all of whose samples have negative
similarity is never the reported best match. -/
theorem C10_confidence_clamped (persons : List Person) (feature : List ℚ) :
    0 ≤ (matchPerson persons feature).2.2 ∧
    ((∀ p ∈ persons, ∀ s ∈ p.features,
        cosineSimilarity feature s.feature < 0) →
      matchPerson persons feature = ("", "", 0)) ∧
    (∀ X ∈ persons,
      (∀ s ∈ X.features, cosineSimilarity feature s.feature < 0) →
      X.id ≠ "" →
      (∀ q ∈ persons, q.id = X.id → q = X) →
      (matchPerson persons feature).1 ≠ X.id) := by
  refine ⟨?_, ?_, ?_⟩
  · rw [matchPerson_conf]
    exact le_foldl_max _ 0
  · intro hneg
    rcases matchPerson_cases persons feature with h | ⟨p, hp, s, hs, _, hpos⟩
    · exact h
    · exact absurd (lt_trans hpos (hneg p hp s hs)) (lt_irrefl 0)
  · intro X hX hneg hid huniq heq
    rcases matchPerson_cases persons feature with h | ⟨p, hp, s, hs, h1, hpos⟩
    · rw [h] at heq
      exact hid heq.symm
    · rw [h1] at heq
      have hpx : p = X := huniq p hp heq
      rw [hpx] at hs
      exact absurd (lt_trans hpos (hneg s hs)) (lt_irrefl 0)

/-- Witness for C10: a one-identity registry whose single sample has
similarity -1 to the query yields the empty-id sentinel with confidence
0, and the identity is not reported. -/
theorem C10_confidence_clamped_witness :
    0 ≤ (matchPerson [(⟨"p2", "Bob", [⟨"p2", [2]⟩]⟩ : Person)] [-2]).2.2 ∧
    matchPerson [(⟨"p2", "Bob", [⟨"p2", [2]⟩]⟩ : Person)] [-2]
      = ("", "", 0) ∧
    (matchPerson [(⟨"p2", "Bob", [⟨"p2", [2]⟩]⟩ : Person)] [-2]).1
      ≠ "p2" := by
  have hcs : cosineSimilarity [-2] [2] = -1 := by
    simp only [cosineSimilarity, dotProduct, List.zipWith, List.sum_cons,
      List.sum_nil]
    norm_num [ratSqrt_four]
  have h := C10_confidence_clamped [(⟨"p2", "Bob", [⟨"p2", [2]⟩]⟩ : Person)] [-2]
  have hneg : ∀ p ∈ [((⟨"p2", "Bob", [⟨"p2", [2]⟩]⟩ : Person) : Person)],
      ∀ s ∈ p.features, cosineSimilarity [-2] s.feature < 0 := by
    intro p hp s hs
    rw [List.mem_singleton] at hp
    subst hp
    rw [List.mem_singleton] at hs
    subst hs
    rw [hcs]
    norm_num
  refine ⟨h.1, h.2.1 hneg, h.2.2 _ (List.mem_singleton_self _) ?_ (by decide) ?_⟩
  · intro s hs
    rw [List.mem_singleton] at hs
    subst hs
    rw [hcs]
    norm_num
  · intro q hq _
    rw [List.mem_singleton] at hq
    exact hq

/-! ## Association list and heap access lemmas -/

/-- Found keys map to stored values: a looked-up value is among the map
values. -/
theorem lookupKey_mem_map_snd {α : Type} (l : List (String × α)) (k : String)
    (a : α) (h : lookupKey l k = some a) : a ∈ l.map (fun kv => kv.2) := by
  induction l with
  | nil => simp [lookupKey] at h
  | cons kv rest ih =>
    obtain ⟨k1, v1⟩ := kv
    simp only [lookupKey] at h
    by_cases hk : k1 = k
    · rw [if_pos hk] at h
      simp only [Option.some.injEq] at h
      simp [h]
    · rw [if_neg hk] at h
      simp [ih h]

/-- Looking up a just-inserted key yields the inserted value. -/
theorem lookupKey_insertKey_self {α : Type} (l : List (String × α))
    (k : String) (a : α) : lookupKey (insertKey l k a) k = some a := by
  induction l with
  | nil => simp [insertKey, lookupKey]
  | cons kv rest ih =>
    obtain ⟨k1, v1⟩ := kv
    simp only [insertKey]
    by_cases hk : k1 = k
    · rw [if_pos hk]
      simp [lookupKey]
    · rw [if_neg hk]
      simp only [lookupKey, if_neg hk]
      exact ih

/-- Reading an in-bounds index just written yields the written value. -/
theorem getD_set_self {α : Type} (l : List α) (a : Nat) (p d : α)
    (h : a < l.length) : (l.set a p).getD a d = p := by
  induction l generalizing a with
  | nil => exact absurd h (by simp)
  | cons x xs ih =>
    cases a with
    | zero => rfl
    | succ n => exact ih n (Nat.lt_of_succ_lt_succ h)

/-- Writing one index leaves reads of a different index unchanged. -/
theorem getD_set_ne {α : Type} (l : List α) (a b : Nat) (p d : α)
    (h : a ≠ b) : (l.set a p).getD b d = l.getD b d := by
  induction l generalizing a b with
  | nil => rfl
  | cons x xs ih =>
    cases a with
    | zero =>
      cases b with
      | zero => exact absurd rfl h
      | succ m => rfl
    | succ n =>
      cases b with
      | zero => rfl
      | succ m => exact ih n m (fun hc => h (by rw [hc]))

/-- Reading inside the original segment of an extended list is
unchanged. -/
theorem getD_append_left {α : Type} (l1 l2 : List α) (a : Nat) (d : α)
    (h : a < l1.length) : (l1 ++ l2).getD a d = l1.getD a d := by
  induction l1 generalizing a with
  | nil => exact absurd h (by simp)
  | cons x xs ih =>
    cases a with
    | zero => rfl
    | succ n => exact ih n (Nat.lt_of_succ_lt_succ h)

/-- Reading the cell appended at the end of a list yields it. -/
theorem getD_append_length {α : Type} (l : List α) (p d : α) :
    (l ++ [p]).getD l.length d = p := by
  induction l with
  | nil => rfl
  | cons x xs ih => exact ih

/-! ## Claim C2: AddFaceSample and the feature dimension -/

/-- C2 (counterexample). With the configured feature dimension 128 and an
encoder producing a 2-component vector, AddFaceSample does not fail: it
appends the normalized 2-component feature to the identity. -/
theorem C2_counterexample :
    (normalizeFeature [3, 4]).length = 2 ∧
    (2 : Nat) ≠ 128 ∧
    addFaceSample ⟨[⟨"X", "Alice", []⟩]⟩ ⟨[("X", 0)], 1, 128, 5⟩ "X"
        [⟨0, 0, 20, 10⟩] (fun _ => .ok [3, 4])
      = .ok ⟨[⟨"X", "Alice", [⟨"X", [3/5, 4/5]⟩]⟩]⟩ := by
  have hnf : normalizeFeature [3, 4] = [3/5, 4/5] := by
    simp only [normalizeFeature, List.map, List.sum_cons, List.sum_nil]
    norm_num [ratSqrt_twentyfive]
  refine ⟨by rw [hnf]; rfl, by decide, ?_⟩
  simp only [addFaceSample, extractFeature, lookupKey, detectFaces,
    detectionRect, List.filter, hnf]
  norm_num [World.appendFeature, World.deref]

/-- C2 (amended). AddFaceSample performs no dimension validation: when
the id is present, detection returns at least one region, and the encoder
succeeds, the normalized feature is appended even though its length
differs from the configured feature dimension. -/
theorem C2_no_dimension_check (w : World) (st : RecognizerState)
    (personID : String) (addr : Addr) (dets : List Detection)
    (encode : Rect → Except Unit (List ℚ)) (f0 : Rect) (fs : List Rect)
    (raw : List ℚ)
    (hlook : lookupKey st.persons personID = some addr)
    (hdet : detectFaces st.qualityThreshold dets = f0 :: fs)
    (henc : encode f0 = .ok raw)
    (hdim : (normalizeFeature raw).length ≠ st.featureDim) :
    addFaceSample w st personID dets encode
      = .ok (w.appendFeature addr ⟨personID, normalizeFeature raw⟩) := by
  simp only [addFaceSample, extractFeature, hlook, hdet, henc]

/-- Witness for C2 (amended) at a concrete state: dimension 128
configured, 2-component feature appended. -/
theorem C2_no_dimension_check_witness :
    addFaceSample ⟨[⟨"X", "Alice", []⟩]⟩ ⟨[("X", 0)], 1, 128, 5⟩ "X"
        [⟨0, 0, 20, 10⟩] (fun _ => .ok [3, 4])
      = .ok (World.appendFeature ⟨[⟨"X", "Alice", []⟩]⟩ 0
          ⟨"X", normalizeFeature [3, 4]⟩) := by
  have hnf : normalizeFeature [3, 4] = [3/5, 4/5] := by
    simp only [normalizeFeature, List.map, List.sum_cons, List.sum_nil]
    norm_num [ratSqrt_twentyfive]
  exact C2_no_dimension_check ⟨[⟨"X", "Alice", []⟩]⟩ ⟨[("X", 0)], 1, 128, 5⟩
    "X" 0 [⟨0, 0, 20, 10⟩] (fun _ => .ok [3, 4])
    ⟨-10, -10, 10, 10⟩ [] [3, 4]
    (by decide) (by decide) rfl (by rw [hnf]; decide)

/-! ## Claim C3: what GetPerson and ListPersons return -/

/-- C3 (counterexample). GetPerson returns the live pointer (address 0):
after mutating the name through it, dereferencing the pointer returned by
a subsequent GetPerson (the same address 0) shows the mutated name. -/
theorem C3_counterexample :
    getPerson ⟨[("X", 0)], 1, 128, 5⟩ "X" = .ok 0 ∧
    listPersons ⟨[("X", 0)], 1, 128, 5⟩ = [0] ∧
    World.deref ⟨[⟨"X", "Alice", []⟩]⟩ 0 = ⟨"X", "Alice", []⟩ ∧
    World.deref (World.setName ⟨[⟨"X", "Alice", []⟩]⟩ 0 "Evil") 0
      = ⟨"X", "Evil", []⟩ := by
  decide

/-- C3 (amended). GetPerson and ListPersons return the registry's live
Person pointers, not copies: the address GetPerson yields is the stored
one (and appears in ListPersons), and assigning the name or the feature
list through it changes what that address dereferences to, hence what any
subsequent GetPerson or ListPersons of this unchanged registry state
exposes. -/
theorem C3_live_pointers (w : World) (st : RecognizerState) (id : String)
    (addr : Addr) (n : String) (fs : List FaceFeature)
    (hlook : getPerson st id = .ok addr) (hv : addr < w.heap.length) :
    lookupKey st.persons id = some addr ∧
    addr ∈ listPersons st ∧
    (w.setName addr n).deref addr = { w.deref addr with name := n } ∧
    (w.setFeatures addr fs).deref addr
      = { w.deref addr with features := fs } := by
  have hl : lookupKey st.persons id = some addr := by
    unfold getPerson at hlook
    rcases h : lookupKey st.persons id with _ | a
    · simp [h] at hlook
    · simp only [h] at hlook
      simp only [Except.ok.injEq] at hlook
      rw [hlook]
  refine ⟨hl, ?_, ?_, ?_⟩
  · exact lookupKey_mem_map_snd st.persons id addr hl
  · exact getD_set_self w.heap addr _ _ hv
  · exact getD_set_self w.heap addr _ _ hv

/-- Witness for C3 (amended) at a concrete registry of one identity. -/
theorem C3_live_pointers_witness :
    0 ∈ listPersons ⟨[("X", 0)], 1, 128, 5⟩ ∧
    (World.setName ⟨[⟨"X", "Alice", []⟩]⟩ 0 "Evil").deref 0
      = ⟨"X", "Evil", []⟩ := by
  have h := C3_live_pointers ⟨[⟨"X", "Alice", []⟩]⟩ ⟨[("X", 0)], 1, 128, 5⟩
    "X" 0 "Evil" [] (by decide) (by decide)
  refine ⟨h.2.1, ?_⟩
  rw [h.2.2.1]
  decide

/-! ## Claim C4: which detected region gets encoded -/

/-- C4 (counterexample). Two detections pass the quality threshold; the
second has the strictly higher quality score, so the policy stated in the
spec selects it, but AddFaceSample encodes the first region in detector
order: the appended feature is the one the encoder produced for the first
region. -/
theorem C4_counterexample :
    detectFaces 5 [⟨0, 0, 20, 6⟩, ⟨0, 0, 40, 10⟩]
      = [detectionRect ⟨0, 0, 20, 6⟩, detectionRect ⟨0, 0, 40, 10⟩] ∧
    specSelectBestRegion 5 [⟨0, 0, 20, 6⟩, ⟨0, 0, 40, 10⟩]
      = some ⟨0, 0, 40, 10⟩ ∧
    detectionRect ⟨0, 0, 20, 6⟩ ≠ detectionRect ⟨0, 0, 40, 10⟩ ∧
    addFaceSample ⟨[⟨"X", "Alice", []⟩]⟩ ⟨[("X", 0)], 1, 128, 5⟩ "X"
        [⟨0, 0, 20, 6⟩, ⟨0, 0, 40, 10⟩]
        (fun r => if r = detectionRect ⟨0, 0, 20, 6⟩ then .ok [3, 4]
                  else .ok [5, 12])
      = .ok ⟨[⟨"X", "Alice", [⟨"X", [3/5, 4/5]⟩]⟩]⟩ := by
  have hnf : normalizeFeature [3, 4] = [3/5, 4/5] := by
    simp only [normalizeFeature, List.map, List.sum_cons, List.sum_nil]
    norm_num [ratSqrt_twentyfive]
  refine ⟨by decide, by decide, by decide, ?_⟩
  simp only [addFaceSample, extractFeature, lookupKey, detectFaces,
    List.filter]
  norm_num [detectionRect, World.appendFeature, World.deref, hnf,
    Rect.mk.injEq]

/-- C4 (amended). AddFaceSample encodes exactly the first region of the
detector output that passed the quality filter, in detector order: with
the first region's encoding it appends that feature, and the outcome is
unchanged by what the encoder would produce on any other region. -/
theorem C4_first_region_encoded (w : World) (st : RecognizerState)
    (personID : String) (addr : Addr) (dets : List Detection)
    (encode : Rect → Except Unit (List ℚ)) (f0 : Rect) (fs : List Rect)
    (hlook : lookupKey st.persons personID = some addr)
    (hdet : detectFaces st.qualityThreshold dets = f0 :: fs) :
    (∀ raw, encode f0 = .ok raw →
      addFaceSample w st personID dets encode
        = .ok (w.appendFeature addr ⟨personID, normalizeFeature raw⟩)) ∧
    (∀ encode2 : Rect → Except Unit (List ℚ), encode2 f0 = encode f0 →
      addFaceSample w st personID dets encode2
        = addFaceSample w st personID dets encode) := by
  constructor
  · intro raw henc
    simp only [addFaceSample, extractFeature, hlook, hdet, henc]
  · intro encode2 heq
    simp only [addFaceSample, extractFeature, hlook, hdet, heq]

/-- Witness for C4 (amended): the first of two passing regions is the one
whose encoding is appended, and replacing the encoder output on the other
region does not change the outcome. -/
theorem C4_first_region_encoded_witness :
    addFaceSample ⟨[⟨"X", "Alice", []⟩]⟩ ⟨[("X", 0)], 1, 128, 5⟩ "X"
        [⟨0, 0, 20, 6⟩, ⟨0, 0, 40, 10⟩] (fun _ => .ok [3, 4])
      = .ok (World.appendFeature ⟨[⟨"X", "Alice", []⟩]⟩ 0
          ⟨"X", normalizeFeature [3, 4]⟩) ∧
    addFaceSample ⟨[⟨"X", "Alice", []⟩]⟩ ⟨[("X", 0)], 1, 128, 5⟩ "X"
        [⟨0, 0, 20, 6⟩, ⟨0, 0, 40, 10⟩]
        (fun r => if r = detectionRect ⟨0, 0, 20, 6⟩ then .ok [3, 4]
                  else .ok [7, 24])
      = addFaceSample ⟨[⟨"X", "Alice", []⟩]⟩ ⟨[("X", 0)], 1, 128, 5⟩ "X"
          [⟨0, 0, 20, 6⟩, ⟨0, 0, 40, 10⟩] (fun _ => .ok [3, 4]) := by
  have h := C4_first_region_encoded ⟨[⟨"X", "Alice", []⟩]⟩
    ⟨[("X", 0)], 1, 128, 5⟩ "X" 0 [⟨0, 0, 20, 6⟩, ⟨0, 0, 40, 10⟩]
    (fun _ => .ok [3, 4]) ⟨-10, -10, 10, 10⟩ [⟨-20, -20, 20, 20⟩]
    (by decide) (by decide)
  exact ⟨h.1 [3, 4] rfl, h.2 _ (by decide)⟩

/-! ## Serialization roundtrip -/

/-- Decoding a list of number nodes yields the original numbers. -/
theorem decodeNums_map_num (l : List ℚ) :
    decodeNums (l.map Jsonish.num) = some l := by
  induction l with
  | nil => rfl
  | cons x xs ih => simp [decodeNums, Jsonish.asNum, ih]

/-- Decoding an encoded FaceFeature yields the original value. -/
theorem unmarshal_marshal_feature (f : FaceFeature) :
    unmarshalFeature (marshalFeature f) = some f := by
  obtain ⟨pid, feat⟩ := f
  simp [marshalFeature, unmarshalFeature, lookupKey, Jsonish.asStr,
    Jsonish.asArr, decodeNums_map_num]

/-- Decoding a list of encoded FaceFeature values yields the originals. -/
theorem decodeFeatures_map_marshal (l : List FaceFeature) :
    decodeFeatures (l.map marshalFeature) = some l := by
  induction l with
  | nil => rfl
  | cons f fs ih => simp [decodeFeatures, unmarshal_marshal_feature, ih]

/-- Decoding an encoded Person yields the original value. -/
theorem unmarshal_marshal_person (p : Person) :
    unmarshalPerson (marshalPerson p) = some p := by
  obtain ⟨id, name, features⟩ := p
  simp [marshalPerson, unmarshalPerson, lookupKey, Jsonish.asStr,
    Jsonish.asArr, decodeFeatures_map_marshal]

/-- Dereferencing the freshly appended cell yields the appended
Person. -/
theorem deref_append_self (l : List Person) (p : Person) :
    World.deref ⟨l ++ [p]⟩ l.length = p :=
  getD_append_length l p _

/-- Value view of a MemoryStorage load of a present id: a copy of the
stored cell. -/
theorem memLoadValue_of_lookup (w : World) (s : MemoryStorage) (id : String)
    (a : Addr) (h : lookupKey s.persons id = some a) :
    memLoadValue w s id = some (w.deref a) := by
  simp only [memLoadValue, memLoadPerson, h, World.alloc]
  exact congrArg some (getD_append_length _ _ _)

/-- Value view of a JSONStorage load of a present id: the stored cell
itself. -/
theorem jsonLoadValue_of_lookup (w : World) (s : JSONStorage) (id : String)
    (a : Addr) (h : lookupKey s.persons id = some a) :
    jsonLoadValue w s id = some (w.deref a) := by
  simp only [jsonLoadValue, jsonLoadPerson, h]

/-- Value view of a FileStorage load of a present, well-formed file: the
decoded Person. -/
theorem fileLoadValue_of_lookup (w : World) (s : FileStorage) (id : String)
    (doc : Jsonish) (p : Person)
    (hf : lookupKey s.files (id ++ ".json") = some (.file doc))
    (hp : unmarshalPerson doc = some p) :
    fileLoadValue w s id = some p := by
  simp only [fileLoadValue, fileLoadPerson, hf, hp, World.alloc]
  exact congrArg some (getD_append_length _ _ _)

/-! ## Claim C5: what the storage loads return -/

/-- C5 (counterexample). JSONStorage stores the caller's pointer and
returns it from LoadPerson: after saving the person at address 0 and
mutating its name through that same pointer, a later load of the id
dereferences to the mutated value, not the saved one. -/
theorem C5_counterexample :
    jsonSavePerson ⟨[⟨"X", "Alice", []⟩]⟩ ⟨[]⟩ 0 = ⟨[("X", 0)]⟩ ∧
    jsonLoadPerson ⟨[("X", 0)]⟩ "X" = .ok 0 ∧
    jsonLoadValue ⟨[⟨"X", "Alice", []⟩]⟩ ⟨[("X", 0)]⟩ "X"
      = some ⟨"X", "Alice", []⟩ ∧
    jsonLoadValue (World.setName ⟨[⟨"X", "Alice", []⟩]⟩ 0 "Evil")
        ⟨[("X", 0)]⟩ "X"
      = some ⟨"X", "Evil", []⟩ := by
  decide

/-- C5 (amended). MemoryStorage and FileStorage loads return pointers to
freshly allocated copies, so mutating the returned cell leaves later
loads unchanged; JSONStorage loads return the stored pointer itself, so a
mutation through it is visible to every later load. -/
theorem C5_load_copy_semantics :
    (∀ (w : World) (s : JSONStorage) (id : String) (addr : Addr) (n : String),
      lookupKey s.persons id = some addr → addr < w.heap.length →
      jsonLoadPerson s id = .ok addr ∧
      addr ∈ jsonLoadAllPersons s ∧
      jsonLoadValue (w.setName addr n) s id
        = some { w.deref addr with name := n }) ∧
    (∀ (w : World) (s : MemoryStorage) (id : String) (addr : Addr) (n : String),
      lookupKey s.persons id = some addr → addr < w.heap.length →
      memLoadPerson w s id = .ok (⟨w.heap ++ [w.deref addr]⟩, w.heap.length) ∧
      memLoadValue ((⟨w.heap ++ [w.deref addr]⟩ : World).setName
          w.heap.length n) s id
        = some (w.deref addr)) ∧
    (∀ (w : World) (s : FileStorage) (id : String) (doc : Jsonish)
        (p : Person) (n : String),
      lookupKey s.files (id ++ ".json") = some (.file doc) →
      unmarshalPerson doc = some p →
      fileLoadPerson w s id = .ok (⟨w.heap ++ [p]⟩, w.heap.length) ∧
      fileLoadValue ((⟨w.heap ++ [p]⟩ : World).setName w.heap.length n) s id
        = some p) := by
  refine ⟨?_, ?_, ?_⟩
  · intro w s id addr n hlook hv
    refine ⟨by simp [jsonLoadPerson, hlook],
      lookupKey_mem_map_snd s.persons id addr hlook, ?_⟩
    rw [jsonLoadValue_of_lookup _ _ _ _ hlook]
    exact congrArg some (by
      unfold World.setName World.deref
      exact getD_set_self w.heap addr _ _ hv)
  · intro w s id addr n hlook hv
    have hderef : (World.setName ⟨w.heap ++ [w.deref addr]⟩ w.heap.length n).deref addr
        = w.deref addr := by
      unfold World.setName World.deref
      rw [getD_set_ne _ _ _ _ _ (Nat.ne_of_lt hv).symm,
        getD_append_left _ _ _ _ hv]
    refine ⟨by simp [memLoadPerson, hlook, World.alloc], ?_⟩
    rw [memLoadValue_of_lookup _ _ _ _ hlook, hderef]
  · intro w s id doc p n hfile hp
    refine ⟨by simp [fileLoadPerson, hfile, hp, World.alloc], ?_⟩
    exact fileLoadValue_of_lookup _ _ _ doc p hfile hp

/-- Witness for C5 (amended) at concrete one-person stores for all three
backends. -/
theorem C5_load_copy_semantics_witness :
    (jsonLoadPerson ⟨[("X", 0)]⟩ "X" = .ok 0 ∧
      jsonLoadValue (World.setName ⟨[⟨"X", "Alice", []⟩]⟩ 0 "Evil")
          ⟨[("X", 0)]⟩ "X"
        = some ⟨"X", "Evil", []⟩) ∧
    (memLoadPerson ⟨[⟨"X", "Alice", []⟩]⟩ ⟨[("X", 0)]⟩ "X"
        = .ok (⟨[⟨"X", "Alice", []⟩, ⟨"X", "Alice", []⟩]⟩, 1) ∧
      memLoadValue ((⟨[⟨"X", "Alice", []⟩, ⟨"X", "Alice", []⟩]⟩ : World).setName
          1 "Evil") ⟨[("X", 0)]⟩ "X"
        = some ⟨"X", "Alice", []⟩) ∧
    (fileLoadPerson ⟨[]⟩ ⟨[("F.json", .file (marshalPerson ⟨"F", "Fred", []⟩))]⟩ "F"
        = .ok (⟨[⟨"F", "Fred", []⟩]⟩, 0) ∧
      fileLoadValue ((⟨[⟨"F", "Fred", []⟩]⟩ : World).setName 0 "Evil")
          ⟨[("F.json", .file (marshalPerson ⟨"F", "Fred", []⟩))]⟩ "F"
        = some ⟨"F", "Fred", []⟩) := by
  refine ⟨?_, ?_, ?_⟩
  · have h := C5_load_copy_semantics.1 ⟨[⟨"X", "Alice", []⟩]⟩ ⟨[("X", 0)]⟩
      "X" 0 "Evil" (by decide) (by decide)
    exact ⟨h.1, h.2.2.trans (by decide)⟩
  · have h := C5_load_copy_semantics.2.1 ⟨[⟨"X", "Alice", []⟩]⟩ ⟨[("X", 0)]⟩
      "X" 0 "Evil" (by decide) (by decide)
    exact ⟨h.1.trans (by decide), h.2.trans (by decide)⟩
  · have h := C5_load_copy_semantics.2.2 ⟨[]⟩
      ⟨[("F.json", .file (marshalPerson ⟨"F", "Fred", []⟩))]⟩ "F"
      (marshalPerson ⟨"F", "Fred", []⟩) ⟨"F", "Fred", []⟩ "Evil"
      rfl (by decide)
    exact ⟨h.1.trans (by decide), h.2.trans (by decide)⟩

/-! ## Claim C6: save followed by load -/

/-- C6. For each of the three backends, SavePerson is total
(create-or-replace keyed by the id) and an immediately following
LoadPerson of that id yields a Person equal to the saved one, for any
prior store contents. -/
theorem C6_save_then_load (w : World) (addr : Addr) (s1 : MemoryStorage)
    (s2 : JSONStorage) (s3 : FileStorage) :
    memLoadValue (memSavePerson w s1 addr).1 (memSavePerson w s1 addr).2
        (w.deref addr).id = some (w.deref addr) ∧
    jsonLoadValue w (jsonSavePerson w s2 addr) (w.deref addr).id
      = some (w.deref addr) ∧
    fileLoadValue w (fileSavePerson w s3 addr) (w.deref addr).id
      = some (w.deref addr) := by
  refine ⟨?_, ?_, ?_⟩
  · have hsave : memSavePerson w s1 addr
        = (⟨w.heap ++ [w.deref addr]⟩,
           ⟨insertKey s1.persons (w.deref addr).id w.heap.length⟩) := rfl
    rw [hsave]
    rw [memLoadValue_of_lookup _ _ _ _ (lookupKey_insertKey_self _ _ _)]
    exact congrArg some (deref_append_self _ _)
  · have hsave : jsonSavePerson w s2 addr
        = ⟨insertKey s2.persons (w.deref addr).id addr⟩ := rfl
    rw [hsave]
    exact jsonLoadValue_of_lookup _ _ _ _ (lookupKey_insertKey_self _ _ _)
  · have hsave : fileSavePerson w s3 addr
        = ⟨insertKey s3.files ((w.deref addr).id ++ ".json")
            (.file (marshalPerson (w.deref addr)))⟩ := rfl
    rw [hsave]
    exact fileLoadValue_of_lookup _ _ _ _ _ (lookupKey_insertKey_self _ _ _)
      (unmarshal_marshal_person _)

/-! ## Claim C7: partial-failure tolerance of the directory scan -/

/-- C7. With valid records for identities A and B and a corrupted file
for C in the base directory, LoadAllPersons succeeds and returns exactly
the A and B records, silently skipping the corrupted entry. -/
theorem C7_loadAll_skips_corrupt (w : World) (pA pB : Person)
    (corrupt : Jsonish) (hc : unmarshalPerson corrupt = none) :
    fileLoadAllValues w ⟨[("A.json", .file (marshalPerson pA)),
        ("B.json", .file (marshalPerson pB)),
        ("C.json", .file corrupt)]⟩
      = [pA, pB] := by
  have happA : ("A" ++ ".json" : String) = "A.json" := rfl
  have happB : ("B" ++ ".json" : String) = "B.json" := rfl
  have happC : ("C" ++ ".json" : String) = "C.json" := rfl
  have hdropA : ("A.json" : String).dropRight 5 = "A" := by decide
  have hdropB : ("B.json" : String).dropRight 5 = "B" := by decide
  have hdropC : ("C.json" : String).dropRight 5 = "C" := by decide
  have hcondA : ¬((FileNode.file (marshalPerson pA)).isDir
      ∨ ("A.json" : String).takeRight 5 ≠ ".json") := by
    rintro (h | h)
    · exact absurd h (by simp [FileNode.isDir])
    · exact h (by decide)
  have hcondB : ¬((FileNode.file (marshalPerson pB)).isDir
      ∨ ("B.json" : String).takeRight 5 ≠ ".json") := by
    rintro (h | h)
    · exact absurd h (by simp [FileNode.isDir])
    · exact h (by decide)
  have hcondC : ¬((FileNode.file corrupt).isDir
      ∨ ("C.json" : String).takeRight 5 ≠ ".json") := by
    rintro (h | h)
    · exact absurd h (by simp [FileNode.isDir])
    · exact h (by decide)
  have hloadA : ∀ wx : World,
      fileLoadPerson wx ⟨[("A.json", .file (marshalPerson pA)),
          ("B.json", .file (marshalPerson pB)),
          ("C.json", .file corrupt)]⟩ "A"
        = .ok (⟨wx.heap ++ [pA]⟩, wx.heap.length) := by
    intro wx
    simp [fileLoadPerson, happA, lookupKey, unmarshal_marshal_person,
      World.alloc]
  have hloadB : ∀ wx : World,
      fileLoadPerson wx ⟨[("A.json", .file (marshalPerson pA)),
          ("B.json", .file (marshalPerson pB)),
          ("C.json", .file corrupt)]⟩ "B"
        = .ok (⟨wx.heap ++ [pB]⟩, wx.heap.length) := by
    intro wx
    simp [fileLoadPerson, happB, lookupKey, unmarshal_marshal_person,
      World.alloc]
  have hloadC :
      fileLoadPerson ⟨w.heap ++ [pA] ++ [pB]⟩
          ⟨[("A.json", .file (marshalPerson pA)),
            ("B.json", .file (marshalPerson pB)),
            ("C.json", .file corrupt)]⟩ "C"
        = .error .unmarshalFailed := by
    simp [fileLoadPerson, happC, lookupKey, hc]
  have hfold : fileLoadAllPersons w ⟨[("A.json", .file (marshalPerson pA)),
      ("B.json", .file (marshalPerson pB)),
      ("C.json", .file corrupt)]⟩
      = (⟨w.heap ++ [pA] ++ [pB]⟩, [w.heap.length, w.heap.length + 1]) := by
    unfold fileLoadAllPersons
    rw [List.foldl_cons, if_neg hcondA]
    rw [hdropA, hloadA w]
    rw [List.foldl_cons, if_neg hcondB]
    rw [hdropB, hloadB ⟨w.heap ++ [pA]⟩]
    rw [List.foldl_cons, if_neg hcondC]
    rw [hdropC, hloadC]
    rw [List.foldl_nil]
    simp [List.length_append]
  rw [fileLoadAllValues, hfold]
  simp only [List.map_cons, List.map_nil]
  rw [show World.deref ⟨w.heap ++ [pA] ++ [pB]⟩ w.heap.length = pA from by
    unfold World.deref
    rw [getD_append_left _ _ _ _ (by simp), getD_append_length]]
  rw [show World.deref ⟨w.heap ++ [pA] ++ [pB]⟩ (w.heap.length + 1) = pB from by
    unfold World.deref
    rw [show w.heap.length + 1 = (w.heap ++ [pA]).length from by simp,
      getD_append_length]]

/-- Witness for C7 with concrete A and B records and a corrupted
document. -/
theorem C7_loadAll_skips_corrupt_witness :
    fileLoadAllValues ⟨[]⟩ ⟨[("A.json", .file (marshalPerson ⟨"A", "Alice", []⟩)),
        ("B.json", .file (marshalPerson ⟨"B", "Bob", []⟩)),
        ("C.json", .file (.str "garbage"))]⟩
      = [⟨"A", "Alice", []⟩, ⟨"B", "Bob", []⟩] :=
  C7_loadAll_skips_corrupt ⟨[]⟩ ⟨"A", "Alice", []⟩ ⟨"B", "Bob", []⟩
    (.str "garbage") (by decide)

end Face
